import Mathlib

/-!
# Verification of the neuroPulse tremor-analysis pipeline

Shallow embedding of the signal-processing core of the neuroPulse
repository: the bandpass filter (`ButterworthFilter.filter` in the
TypeScript module and `applyBandpassFilter` in the firmware), the
DFT-based feature extraction (`extractEMGFeatures`, `extractFeatures`,
`simpleFFT`), the weighted-score classifier (`classifyTremor`), the
severity index computations, and the insight generator
(`generateEMGInsights`).

Machine floating-point numbers are modelled as exact rationals (for the
computable parts) or exact reals (for the parts using `sqrt`, `log`,
`cos`, `sin`).  For the NaN-handling claim, a small model of JavaScript
numbers with an absorbing NaN element is used.
-/

namespace NeuroPulse

/-! ## Bandpass filter coefficients (identical in firmware and TS module) -/

/-- Numerator coefficient `b[0] = 0.0976`. -/
def b0 : ℚ := 0.0976

/-- Numerator coefficient `b[1] = 0.1952`. -/
def b1 : ℚ := 0.1952

/-- Numerator coefficient `b[2] = 0.0976`. -/
def b2 : ℚ := 0.0976

/-- Denominator coefficient `a[1] = -0.9428` (`a[0] = 1` is never read). -/
def a1 : ℚ := -0.9428

/-- Denominator coefficient `a[2] = 0.3333`. -/
def a2 : ℚ := 0.3333

/-! ## The TS `ButterworthFilter` (stateful, three-slot input history) -/

/-- The `history` array of `ButterworthFilter`: three most recent values
stored by `filter` (slot 0 is the newest raw input). -/
structure FilterHistory where
  h0 : ℚ
  h1 : ℚ
  h2 : ℚ
deriving DecidableEq

/-- Initial filter state / result of `reset()`: `history = [0, 0, 0]`. -/
def resetHistory : FilterHistory := ⟨0, 0, 0⟩

/-- One call of `ButterworthFilter.filter(input)`: shifts the history
(`history[2] = history[1]; history[1] = history[0]; history[0] = input`)
and returns
`b[0]*history[0] + b[1]*history[1] + b[2]*history[2] - a[1]*history[1] - a[2]*history[2]`. -/
def filterStep (s : FilterHistory) (input : ℚ) : FilterHistory × ℚ :=
  let s' : FilterHistory := ⟨input, s.h0, s.h1⟩
  (s', b0 * s'.h0 + b1 * s'.h1 + b2 * s'.h2 - a1 * s'.h1 - a2 * s'.h2)

/-- Run the filter over a list of samples starting from state `s`,
returning the list of outputs. -/
def runFilterFrom (s : FilterHistory) : List ℚ → List ℚ
  | [] => []
  | x :: xs => (filterStep s x).2 :: runFilterFrom (filterStep s x).1 xs

/-- The TS `applyBandpassFilter`: a fresh `ButterworthFilter` (zero
history) mapped over the whole signal. -/
def applyBandpassFilter (xs : List ℚ) : List ℚ := runFilterFrom resetHistory xs

/-- Modelled from the spec: the claimed IIR recurrence
`y[n] = b0*x[n] + b1*x[n-1] + b2*x[n-2] - a1*y[n-1] - a2*y[n-2]`
where `y[n-1]`, `y[n-2]` are the previous two *filter outputs*.  State:
last two inputs and last two outputs. -/
structure IIRHistory where
  x1 : ℚ
  x2 : ℚ
  y1 : ℚ
  y2 : ℚ
deriving DecidableEq

/-- Modelled from the spec: one step of the claimed IIR recurrence. -/
def specIIRStep (s : IIRHistory) (x : ℚ) : IIRHistory × ℚ :=
  let y := b0 * x + b1 * s.x1 + b2 * s.x2 - a1 * s.y1 - a2 * s.y2
  (⟨x, s.x1, y, s.y1⟩, y)

/-- Modelled from the spec: run the claimed IIR recurrence from zeroed
state over a list of samples. -/
def runSpecIIRFrom (s : IIRHistory) : List ℚ → List ℚ
  | [] => []
  | x :: xs => (specIIRStep s x).2 :: runSpecIIRFrom (specIIRStep s x).1 xs

/-- Modelled from the spec: the claimed IIR filter with zero-initialized
state. -/
def runSpecIIR (xs : List ℚ) : List ℚ := runSpecIIRFrom ⟨0, 0, 0, 0⟩ xs

/-- Two virtual zero samples prepended to the input, so that
`paddedInput xs (n+2)` is `x[n]`, `paddedInput xs (n+1)` is `x[n-1]` and
`paddedInput xs n` is `x[n-2]` (with the zero initial state supplying
the missing history). -/
def paddedInput (xs : List ℚ) (k : ℕ) : ℚ := (0 :: 0 :: xs).getD k 0

end NeuroPulse

namespace NeuroPulse

/-! ## Severity classes and the firmware classifier -/

/-- The four severity classes returned by `classifyTremor` (strings in
the C++ source) and by `generateEMGInsights` (a union of string
literals in the TS source). -/
inductive Severity where
  | normal
  | mild
  | moderate
  | severe
deriving DecidableEq

/-- Ordinal of a severity class: normal < mild < moderate < severe. -/
def severityOrdinal : Severity → ℕ
  | .normal => 0
  | .mild => 1
  | .moderate => 2
  | .severe => 3

/-- The firmware `TremorFeatures` struct (exact rationals). -/
structure TremorFeatures where
  meanAmplitude : ℚ
  rmsAmplitude : ℚ
  dominantFrequency : ℚ
  frequencyPower : ℚ
  spectralCentroid : ℚ
  zeroCrossingRate : ℚ
  signalEnergy : ℚ
  entropy : ℚ
deriving DecidableEq

/-- The weighted score computed inside `classifyTremor`: the fixed
`MLModel` bias `0.5` plus the sum over the ten normalized features of
`normalizedFeatures[i] * weights[i]`, with
`weights = {0.1, -0.2, 0.3, -0.1, 0.2, 0.15, -0.25, 0.05, 0.1, -0.05}`. -/
def tremorScore (f : TremorFeatures) : ℚ :=
  0.5
    + f.meanAmplitude / 100 * 0.1
    + f.rmsAmplitude / 100 * (-0.2)
    + f.dominantFrequency / 10 * 0.3
    + f.frequencyPower / 1000 * (-0.1)
    + f.spectralCentroid / 10 * 0.2
    + f.zeroCrossingRate * 10 * 0.15
    + f.signalEnergy / 10000 * (-0.25)
    + f.entropy / 10 * 0.05
    + (if 3 ≤ f.dominantFrequency ∧ f.dominantFrequency ≤ 8 then (1 : ℚ) else 0) * 0.1
    + (if f.rmsAmplitude > 10 then (1 : ℚ) else 0) * (-0.05)

/-- The firmware `classifyTremor`: thresholds the weighted score
(`> 0.7` severe, `> 0.4` moderate, `> 0.1` mild, otherwise normal). -/
def classifyTremor (f : TremorFeatures) : Severity :=
  if tremorScore f > 0.7 then .severe
  else if tremorScore f > 0.4 then .moderate
  else if tremorScore f > 0.1 then .mild
  else .normal

/-- The firmware severity index from `processTremorData`:
`min(100, max(0, rmsAmplitude * 10 + dominantFrequency * 2))`. -/
def severityIndexFW (rms freq : ℚ) : ℚ := min 100 (max 0 (rms * 10 + freq * 2))

end NeuroPulse

namespace NeuroPulse

/-! ## A model of JavaScript/IEEE numbers with NaN, for the filter's
(absent) NaN handling.  Finite values are exact rationals; any
arithmetic operation involving NaN yields NaN, as in IEEE 754. -/

/-- A JavaScript number: either a finite value or NaN. -/
inductive JSNum where
  | num : ℚ → JSNum
  | nan : JSNum
deriving DecidableEq

/-- NaN-absorbing addition. -/
def JSNum.add : JSNum → JSNum → JSNum
  | .num x, .num y => .num (x + y)
  | _, _ => .nan

/-- NaN-absorbing subtraction. -/
def JSNum.sub : JSNum → JSNum → JSNum
  | .num x, .num y => .num (x - y)
  | _, _ => .nan

/-- NaN-absorbing multiplication. -/
def JSNum.mul : JSNum → JSNum → JSNum
  | .num x, .num y => .num (x * y)
  | _, _ => .nan

instance : Add JSNum := ⟨JSNum.add⟩

instance : Sub JSNum := ⟨JSNum.sub⟩

instance : Mul JSNum := ⟨JSNum.mul⟩

/-- The `ButterworthFilter` history over JavaScript numbers. -/
structure JSFilterHistory where
  h0 : JSNum
  h1 : JSNum
  h2 : JSNum
deriving DecidableEq

/-- One call of `ButterworthFilter.filter` over JavaScript numbers;
the source applies the arithmetic directly to the input with no
NaN/Inf check. -/
def jsFilterStep (s : JSFilterHistory) (input : JSNum) : JSFilterHistory × JSNum :=
  let s' : JSFilterHistory := ⟨input, s.h0, s.h1⟩
  (s', .num b0 * s'.h0 + .num b1 * s'.h1 + .num b2 * s'.h2
        - .num a1 * s'.h1 - .num a2 * s'.h2)

/-- Run the JS-number filter from a given state. -/
def runJSFilterFrom (s : JSFilterHistory) : List JSNum → List JSNum
  | [] => []
  | x :: xs => (jsFilterStep s x).2 :: runJSFilterFrom (jsFilterStep s x).1 xs

/-- A fresh `ButterworthFilter` (zero history) over JavaScript numbers. -/
def runJSFilter (xs : List JSNum) : List JSNum :=
  runJSFilterFrom ⟨.num 0, .num 0, .num 0⟩ xs

end NeuroPulse

namespace NeuroPulse

/-! ## Real-valued feature extraction (TS `extractEMGFeatures` and
firmware `extractFeatures`), including the direct DFT (`simpleFFT`). -/

noncomputable section

/-- TS/C++ `meanAmplitude`: mean of the absolute sample values. -/
def meanAmplitudeOf (signal : List ℝ) : ℝ :=
  (signal.map (fun v => |v|)).sum / signal.length

/-- Mean of the squared sample values (the accumulator of the RMS
computation before the square root). -/
def meanSquareOf (signal : List ℝ) : ℝ :=
  (signal.map (fun v => v * v)).sum / signal.length

/-- TS/C++ `rmsAmplitude`: `sqrt` of the mean square. -/
def rmsAmplitudeOf (signal : List ℝ) : ℝ := Real.sqrt (meanSquareOf signal)

/-- TS `signalVariance`: mean squared deviation from `meanAmplitude`. -/
def signalVarianceOf (signal : List ℝ) : ℝ :=
  (signal.map (fun v => (v - meanAmplitudeOf signal) ^ 2)).sum / signal.length

/-- Zero crossings: count of consecutive pairs with
`(prev > 0 and cur < 0) or (prev < 0 and cur > 0)` (loop from `i = 1`). -/
def zeroCrossCount : List ℝ → ℕ
  | a :: b :: rest =>
      (if (a > 0 ∧ b < 0) ∨ (a < 0 ∧ b > 0) then 1 else 0) + zeroCrossCount (b :: rest)
  | _ => 0

/-- The DFT angle of `simpleFFT`: `-2 * PI * freq * t / sampleRate`. -/
def dftAngle (sampleRate freq : ℝ) (t : ℕ) : ℝ :=
  -2 * Real.pi * freq * t / sampleRate

/-- The `real` accumulator of `simpleFFT` for one frequency. -/
def dftRealPart (signal : List ℝ) (sampleRate freq : ℝ) : ℝ :=
  ∑ t ∈ Finset.range signal.length, signal.getD t 0 * Real.cos (dftAngle sampleRate freq t)

/-- The `imag` accumulator of `simpleFFT` for one frequency. -/
def dftImagPart (signal : List ℝ) (sampleRate freq : ℝ) : ℝ :=
  ∑ t ∈ Finset.range signal.length, signal.getD t 0 * Real.sin (dftAngle sampleRate freq t)

/-- The frequency of DFT bin `k`: `k * sampleRate / n`. -/
def binFrequency (sampleRate : ℝ) (n : ℕ) (k : ℕ) : ℝ := (k : ℝ) * sampleRate / n

/-- `magnitude[k] = sqrt(real*real + imag*imag)` of `simpleFFT`. -/
def magnitudeAt (signal : List ℝ) (sampleRate : ℝ) (k : ℕ) : ℝ :=
  Real.sqrt
    (dftRealPart signal sampleRate (binFrequency sampleRate signal.length k)
        * dftRealPart signal sampleRate (binFrequency sampleRate signal.length k)
      + dftImagPart signal sampleRate (binFrequency sampleRate signal.length k)
        * dftImagPart signal sampleRate (binFrequency sampleRate signal.length k))

/-- Number of DFT bins of the TS `simpleFFT`: the loop `k < n / 2` with
JavaScript real division admits `ceil(n / 2)` indices. -/
def numBinsTS (n : ℕ) : ℕ := (n + 1) / 2

/-- Number of DFT bins of the firmware `simpleFFT`: `k < n / 2` with C
integer division. -/
def numBinsCpp (n : ℕ) : ℕ := n / 2

/-- The bin indices visited by the dominant-frequency loops:
`i = 1; i < bins`. -/
def binIndices (bins : ℕ) : List ℕ := List.range' 1 (bins - 1)

/-- One iteration of the dominant-frequency loop.  State:
`(maxMagnitude, dominantFreqBin, totalPower)`.  Inside the tremor band
(`3 <= freq <= 12`) the magnitude is added to `totalPower` and the
running maximum is updated on a strict increase. -/
def bandScanStep (mag freqf : ℕ → ℝ) (s : ℝ × ℕ × ℝ) (i : ℕ) : ℝ × ℕ × ℝ :=
  if 3 ≤ freqf i ∧ freqf i ≤ 12 then
    if mag i > s.1 then (mag i, i, s.2.2 + mag i) else (s.1, s.2.1, s.2.2 + mag i)
  else s

/-- The dominant-frequency loop starting from
`maxMagnitude = 0, dominantFreqBin = 0, totalPower = 0`. -/
def bandScan (mag freqf : ℕ → ℝ) (idxs : List ℕ) : ℝ × ℕ × ℝ :=
  idxs.foldl (bandScanStep mag freqf) (0, 0, 0)

/-- The spectral-centroid accumulator: `weightedSum += freq * magnitude`
over the in-band bins. -/
def weightedFreqSum (mag freqf : ℕ → ℝ) (idxs : List ℕ) : ℝ :=
  idxs.foldl (fun acc i => if 3 ≤ freqf i ∧ freqf i ≤ 12 then acc + freqf i * mag i else acc) 0

/-- The C++ entropy loop:
`normalized = abs(x) / rms; if (normalized > 0.001) entropy -= normalized * log(normalized)`. -/
def entropyOf (signal : List ℝ) (rms : ℝ) : ℝ :=
  signal.foldl
    (fun e v => if |v| / rms > 0.001 then e - |v| / rms * Real.log (|v| / rms) else e) 0

/-- The TS `ProcessedEMGFeatures` record. -/
structure ProcessedEMGFeatures where
  frequency : ℝ
  amplitude : ℝ
  severityIndex : ℝ
  dominantFrequency : ℝ
  spectralCentroid : ℝ
  signalEnergy : ℝ
  zeroCrossingRate : ℝ
  rmsAmplitude : ℝ
  meanAmplitude : ℝ
  signalVariance : ℝ

/-- The all-zero record returned by `extractEMGFeatures` for an empty
signal. -/
def zeroEMGFeatures : ProcessedEMGFeatures := ⟨0, 0, 0, 0, 0, 0, 0, 0, 0, 0⟩

/-- TS `zeroCrossingRate = zeroCrossings / signal.length`. -/
def zeroCrossingRateOf (signal : List ℝ) : ℝ := (zeroCrossCount signal : ℝ) / signal.length

/-- The `dominantFreqBin` accumulator of `extractEMGFeatures` after its
scan loop. -/
def tsDominantFreqBin (signal : List ℝ) (sampleRate : ℝ) : ℕ :=
  (bandScan (magnitudeAt signal sampleRate) (binFrequency sampleRate signal.length)
    (binIndices (numBinsTS signal.length))).2.1

/-- The `totalPower` accumulator of `extractEMGFeatures` after its scan
loop. -/
def tsTotalPower (signal : List ℝ) (sampleRate : ℝ) : ℝ :=
  (bandScan (magnitudeAt signal sampleRate) (binFrequency sampleRate signal.length)
    (binIndices (numBinsTS signal.length))).2.2

/-- TS `dominantFrequency = frequencyArray[dominantFreqBin] || 0` (the
`|| 0` maps a falsy 0 to 0). -/
def tsDominantFrequency (signal : List ℝ) (sampleRate : ℝ) : ℝ :=
  if binFrequency sampleRate signal.length (tsDominantFreqBin signal sampleRate) = 0 then 0
  else binFrequency sampleRate signal.length (tsDominantFreqBin signal sampleRate)

/-- TS `spectralCentroid = totalPower > 0 ? weightedSum / totalPower : 0`. -/
def tsSpectralCentroid (signal : List ℝ) (sampleRate : ℝ) : ℝ :=
  if tsTotalPower signal sampleRate > 0 then
    weightedFreqSum (magnitudeAt signal sampleRate) (binFrequency sampleRate signal.length)
      (binIndices (numBinsTS signal.length)) / tsTotalPower signal sampleRate
  else 0

/-- TS `severityIndex`:
`min(100, max(0, rms/100*50 + dominantFrequency/10*30 + zcr*100*20))`. -/
def tsSeverityIndex (signal : List ℝ) (sampleRate : ℝ) : ℝ :=
  min 100 (max 0
    (rmsAmplitudeOf signal / 100 * 50 + tsDominantFrequency signal sampleRate / 10 * 30
      + zeroCrossingRateOf signal * 100 * 20))

/-- The TS `extractEMGFeatures(signal, sampleRate)`. -/
def extractEMGFeatures (signal : List ℝ) (sampleRate : ℝ) : ProcessedEMGFeatures :=
  if signal.length = 0 then zeroEMGFeatures
  else
    { frequency := tsDominantFrequency signal sampleRate
      amplitude := rmsAmplitudeOf signal
      severityIndex := tsSeverityIndex signal sampleRate
      dominantFrequency := tsDominantFrequency signal sampleRate
      spectralCentroid := tsSpectralCentroid signal sampleRate
      signalEnergy := rmsAmplitudeOf signal * rmsAmplitudeOf signal
      zeroCrossingRate := zeroCrossingRateOf signal
      rmsAmplitude := rmsAmplitudeOf signal
      meanAmplitude := meanAmplitudeOf signal
      signalVariance := signalVarianceOf signal }

/-- The firmware `TremorFeatures` struct over exact reals. -/
structure TremorFeaturesR where
  meanAmplitude : ℝ
  rmsAmplitude : ℝ
  dominantFrequency : ℝ
  frequencyPower : ℝ
  spectralCentroid : ℝ
  zeroCrossingRate : ℝ
  signalEnergy : ℝ
  entropy : ℝ

/-- The firmware sample rate: 200 Hz. -/
def SAMPLE_RATE : ℝ := 200

/-- The `dominantFreqBin` accumulator of the firmware `extractFeatures`
after its scan loop. -/
def cppDominantFreqBin (signal : List ℝ) : ℕ :=
  (bandScan (magnitudeAt signal SAMPLE_RATE) (binFrequency SAMPLE_RATE signal.length)
    (binIndices (numBinsCpp signal.length))).2.1

/-- The `totalPower` accumulator of the firmware `extractFeatures` after
its scan loop. -/
def cppTotalPower (signal : List ℝ) : ℝ :=
  (bandScan (magnitudeAt signal SAMPLE_RATE) (binFrequency SAMPLE_RATE signal.length)
    (binIndices (numBinsCpp signal.length))).2.2

/-- Firmware `spectralCentroid = totalPower > 0 ? weightedSum / totalPower : 0`. -/
def cppSpectralCentroid (signal : List ℝ) : ℝ :=
  if cppTotalPower signal > 0 then
    weightedFreqSum (magnitudeAt signal SAMPLE_RATE)
      (binFrequency SAMPLE_RATE signal.length) (binIndices (numBinsCpp signal.length))
      / cppTotalPower signal
  else 0

/-- The firmware `extractFeatures(signal, length)` (with
`length = signal.length`, as at every call site). -/
def extractFeatures (signal : List ℝ) : TremorFeaturesR :=
  { meanAmplitude := meanAmplitudeOf signal
    rmsAmplitude := rmsAmplitudeOf signal
    dominantFrequency := (cppDominantFreqBin signal : ℝ) * SAMPLE_RATE / signal.length
    frequencyPower := cppTotalPower signal
    spectralCentroid := cppSpectralCentroid signal
    zeroCrossingRate := zeroCrossingRateOf signal
    signalEnergy := rmsAmplitudeOf signal * rmsAmplitudeOf signal
    entropy := entropyOf signal (rmsAmplitudeOf signal) }

/-- The classification of `generateEMGInsights`, which thresholds the
`severityIndex` field (`> 70` severe, `> 40` moderate, `> 20` mild,
otherwise normal). -/
def generateEMGInsightsPattern (f : ProcessedEMGFeatures) : Severity :=
  if f.severityIndex > 70 then .severe
  else if f.severityIndex > 40 then .moderate
  else if f.severityIndex > 20 then .mild
  else .normal

/-- The input of the spec's dominant-frequency round-trip test: 256
samples of a pure 5 Hz sine wave sampled at 200 Hz. -/
def sineWave : List ℝ :=
  (List.range 256).map (fun t : ℕ => Real.sin (2 * Real.pi * 5 * t / 200))

/-- The geometric sum `sum over t < 256 of exp(pi*m/640*I)^t`: the
closed form of the DFT of the test sine wave splits into two of these. -/
def expGeomSum (m : ℤ) : ℂ :=
  ∑ t ∈ Finset.range 256, Complex.exp ((↑(Real.pi * m / 640) : ℂ) * Complex.I) ^ t

end

end NeuroPulse

namespace NeuroPulse

/-! ## Helper lemmas -/

@[simp]
theorem JSNum.num_mul_num (x y : ℚ) : JSNum.num x * JSNum.num y = JSNum.num (x * y) := rfl

@[simp]
theorem JSNum.mul_nan (x : JSNum) : x * JSNum.nan = JSNum.nan := by cases x <;> rfl

@[simp]
theorem JSNum.nan_mul (x : JSNum) : JSNum.nan * x = JSNum.nan := rfl

@[simp]
theorem JSNum.num_add_num (x y : ℚ) : JSNum.num x + JSNum.num y = JSNum.num (x + y) := rfl

@[simp]
theorem JSNum.add_nan (x : JSNum) : x + JSNum.nan = JSNum.nan := by cases x <;> rfl

@[simp]
theorem JSNum.nan_add (x : JSNum) : JSNum.nan + x = JSNum.nan := rfl

@[simp]
theorem JSNum.num_sub_num (x y : ℚ) : JSNum.num x - JSNum.num y = JSNum.num (x - y) := rfl

@[simp]
theorem JSNum.sub_nan (x : JSNum) : x - JSNum.nan = JSNum.nan := by cases x <;> rfl

@[simp]
theorem JSNum.nan_sub (x : JSNum) : JSNum.nan - x = JSNum.nan := rfl

/-- Outputs of `runFilterFrom` depend on the two most recent inputs
stored in the history (the third slot is shifted out before it is ever
read). -/
theorem runFilterFrom_getD (xs : List ℚ) : ∀ (p0 p1 j : ℚ) (n : ℕ), n < xs.length →
    (runFilterFrom ⟨p0, p1, j⟩ xs).getD n 0 =
      b0 * ((p1 :: p0 :: xs).getD (n + 2) 0) + b1 * ((p1 :: p0 :: xs).getD (n + 1) 0)
        + b2 * ((p1 :: p0 :: xs).getD n 0)
        - a1 * ((p1 :: p0 :: xs).getD (n + 1) 0) - a2 * ((p1 :: p0 :: xs).getD n 0) := by
  induction xs with
  | nil => intro p0 p1 j n hn; simp at hn
  | cons x rest ih =>
    intro p0 p1 j n hn
    cases n with
    | zero => simp [runFilterFrom, filterStep]
    | succ m =>
      have hm : m < rest.length := by simpa using hn
      have := ih x p0 p1 m hm
      simpa [runFilterFrom, filterStep] using this

end NeuroPulse

namespace NeuroPulse

/-! ## Claim C1: the filter recurrence -/

/-- C1, counterexample: on the input sequence `[1, 0]` the second output
of the Signal Filter (`ButterworthFilter.filter`) differs from the
second output of the claimed IIR recurrence in which `y[n-1]`, `y[n-2]`
are the previous two filter outputs (code: `1.138`, claim:
`0.28721728`). -/
theorem filter_differs_from_spec_IIR :
    (applyBandpassFilter [1, 0]).getD 1 0 ≠ (runSpecIIR [1, 0]).getD 1 0 := by
  have h1 : applyBandpassFilter [1, 0] = [0.0976, 1.138] := by
    norm_num [applyBandpassFilter, runFilterFrom, filterStep, resetHistory,
      b0, b1, b2, a1, a2]
  have h2 : runSpecIIR [1, 0] = [0.0976, 0.28721728] := by
    norm_num [runSpecIIR, runSpecIIRFrom, specIIRStep, b0, b1, b2, a1, a2]
  rw [h1, h2]
  norm_num

/-- C1, amended: for every raw input sample `x[n]`, the Signal Filter's
output equals
`y[n] = b0*x[n] + b1*x[n-1] + b2*x[n-2] - a1*x[n-1] - a2*x[n-2]`
where `x[n-1]`, `x[n-2]` are the previous two raw *inputs* (state
initialized to zero, so missing history reads as 0): an FIR filter on
the three most recent samples, not the claimed IIR recurrence. -/
theorem filter_output_is_FIR_on_inputs (xs : List ℚ) (n : ℕ) (hn : n < xs.length) :
    (applyBandpassFilter xs).getD n 0 =
      b0 * paddedInput xs (n + 2) + b1 * paddedInput xs (n + 1) + b2 * paddedInput xs n
        - a1 * paddedInput xs (n + 1) - a2 * paddedInput xs n := by
  have := runFilterFrom_getD xs 0 0 0 n hn
  simpa [applyBandpassFilter, resetHistory, paddedInput] using this

/-- C1, witness: the amended FIR recurrence evaluated on the concrete
input `[1, 2, 3]` at `n = 2`. -/
theorem filter_output_is_FIR_on_inputs_witness :
    (2 : ℕ) < ([1, 2, 3] : List ℚ).length
    ∧ (applyBandpassFilter [1, 2, 3]).getD 2 0 = 2.3331 := by
  refine ⟨by norm_num, ?_⟩
  rw [filter_output_is_FIR_on_inputs [1, 2, 3] 2 (by norm_num)]
  have h4 : paddedInput [1, 2, 3] (2 + 2) = 3 := rfl
  have h3 : paddedInput [1, 2, 3] (2 + 1) = 2 := rfl
  have h2 : paddedInput [1, 2, 3] 2 = 1 := rfl
  rw [h4, h3, h2]
  norm_num [b0, b1, b2, a1, a2]

end NeuroPulse

namespace NeuroPulse

/-! ## Claim C3: the weighted-score classifier -/

/-- C3: `classifyTremor` computes the weighted score
`0.5 + sum of weight_i * normalizedFeature_i` (see `tremorScore`) and
returns severe iff score > 0.7, moderate iff 0.4 < score <= 0.7, mild
iff 0.1 < score <= 0.4, and normal iff score <= 0.1. -/
theorem classifyTremor_score_bands (f : TremorFeatures) :
    (classifyTremor f = .severe ↔ tremorScore f > 0.7)
    ∧ (classifyTremor f = .moderate ↔ 0.4 < tremorScore f ∧ tremorScore f ≤ 0.7)
    ∧ (classifyTremor f = .mild ↔ 0.1 < tremorScore f ∧ tremorScore f ≤ 0.4)
    ∧ (classifyTremor f = .normal ↔ tremorScore f ≤ 0.1) := by
  unfold classifyTremor
  split_ifs with h1 h2 h3
  · exact ⟨⟨fun _ => h1, fun _ => rfl⟩,
      ⟨fun hc => absurd hc (by decide), fun hs => absurd h1 (not_lt.mpr hs.2)⟩,
      ⟨fun hc => absurd hc (by decide),
        fun hs => absurd h1 (not_lt.mpr (hs.2.trans (by norm_num)))⟩,
      ⟨fun hc => absurd hc (by decide),
        fun hs => absurd h1 (not_lt.mpr (hs.trans (by norm_num)))⟩⟩
  · exact ⟨⟨fun hc => absurd hc (by decide), fun hgt => absurd hgt h1⟩,
      ⟨fun _ => ⟨h2, not_lt.mp h1⟩, fun _ => rfl⟩,
      ⟨fun hc => absurd hc (by decide), fun hs => absurd h2 (not_lt.mpr hs.2)⟩,
      ⟨fun hc => absurd hc (by decide),
        fun hs => absurd h2 (not_lt.mpr (hs.trans (by norm_num)))⟩⟩
  · exact ⟨⟨fun hc => absurd hc (by decide), fun hgt => absurd hgt h1⟩,
      ⟨fun hc => absurd hc (by decide), fun hs => absurd hs.1 h2⟩,
      ⟨fun _ => ⟨h3, not_lt.mp h2⟩, fun _ => rfl⟩,
      ⟨fun hc => absurd hc (by decide), fun hs => absurd h3 (not_lt.mpr hs)⟩⟩
  · exact ⟨⟨fun hc => absurd hc (by decide), fun hgt => absurd hgt h1⟩,
      ⟨fun hc => absurd hc (by decide), fun hs => absurd hs.1 h2⟩,
      ⟨fun hc => absurd hc (by decide), fun hs => absurd hs.1 h3⟩,
      ⟨fun _ => not_lt.mp h3, fun _ => rfl⟩⟩

end NeuroPulse

namespace NeuroPulse

/-! ## Claim C6: NaN handling in the filter -/

/-- C6: `ButterworthFilter.filter` contains no NaN/Inf guard.  A NaN
input is written into the history unchanged, so the filter emits NaN
for the current sample and for the next two samples (the claim says the
sample would be treated as 0, which would give the finite outputs of
`runFilter [0, 1, 2, 3]`, starting with 0). -/
theorem runJSFilter_nan_poisons :
    runJSFilter [.nan, .num 1, .num 2, .num 3]
      = [.nan, .nan, .nan, .num 2.3331]
    ∧ applyBandpassFilter [0, 1, 2, 3] = [0, 0.0976, 1.3332, 2.3331] := by
  constructor
  · norm_num [runJSFilter, runJSFilterFrom, jsFilterStep, b0, b1, b2, a1, a2]
  · norm_num [applyBandpassFilter, runFilterFrom, filterStep, resetHistory,
      b0, b1, b2, a1, a2]

end NeuroPulse

namespace NeuroPulse

/-! ## Claim C8: classifier monotonicity in dominant frequency -/

/-- C8, counterexample: with all other features held fixed at mid-range
values (mean 50, rms 50, power 500, centroid 5, zcr 0.02, energy 2500,
entropy 2), raising `dominantFrequency` from 8 Hz to 9 Hz (both inside
the 0-12 Hz range, with no out-of-band fallback in the weighted-score
path) drops the class from severe to moderate: the tremor-band
indicator feature `3 <= freq <= 8` switches off. -/
theorem classify_freq_monotone_counterexample :
    classifyTremor ⟨50, 50, 8, 500, 5, 0.02, 2500, 2⟩ = .severe
    ∧ classifyTremor ⟨50, 50, 9, 500, 5, 0.02, 2500, 2⟩ = .moderate
    ∧ severityOrdinal (classifyTremor ⟨50, 50, 9, 500, 5, 0.02, 2500, 2⟩)
        < severityOrdinal (classifyTremor ⟨50, 50, 8, 500, 5, 0.02, 2500, 2⟩) := by
  have h8 : classifyTremor ⟨50, 50, 8, 500, 5, 0.02, 2500, 2⟩ = .severe := by
    norm_num [classifyTremor, tremorScore]
  have h9 : classifyTremor ⟨50, 50, 9, 500, 5, 0.02, 2500, 2⟩ = .moderate := by
    norm_num [classifyTremor, tremorScore]
  exact ⟨h8, h9, by rw [h8, h9]; decide⟩

/-- C8, amended: the weighted-score class ordinal is monotone in
`dominantFrequency` on the range up to the 8 Hz upper edge of the
tremor-band indicator feature (for any fixed values of the other
features); past 8 Hz the indicator switches off and the ordinal can
drop. -/
theorem classify_monotone_in_freq_upto8 (f : TremorFeatures) (x y : ℚ)
    (hxy : x ≤ y) (hy : y ≤ 8) :
    severityOrdinal (classifyTremor { f with dominantFrequency := x })
      ≤ severityOrdinal (classifyTremor { f with dominantFrequency := y }) := by
  obtain ⟨mea, rms, _, pow, cen, zcr, ene, ent⟩ := f
  have hind : (if 3 ≤ x ∧ x ≤ 8 then (1 : ℚ) else 0)
      ≤ (if 3 ≤ y ∧ y ≤ 8 then (1 : ℚ) else 0) := by
    split_ifs with hx hy2
    · norm_num
    · exact absurd ⟨hx.1.trans hxy, hy⟩ hy2
    · norm_num
    · norm_num
  have hscore : tremorScore ⟨mea, rms, x, pow, cen, zcr, ene, ent⟩
      ≤ tremorScore ⟨mea, rms, y, pow, cen, zcr, ene, ent⟩ := by
    unfold tremorScore
    dsimp only
    linarith [hind]
  unfold classifyTremor
  split_ifs <;> first | decide | (exfalso; linarith)

/-- C8, witness: the amended monotonicity at the concrete features
`(0, ..., 0)` with frequencies 0 and 8. -/
theorem classify_monotone_in_freq_upto8_witness :
    severityOrdinal (classifyTremor { (⟨0, 0, 0, 0, 0, 0, 0, 0⟩ : TremorFeatures) with
        dominantFrequency := (0 : ℚ) })
      ≤ severityOrdinal (classifyTremor { (⟨0, 0, 0, 0, 0, 0, 0, 0⟩ : TremorFeatures) with
        dominantFrequency := (8 : ℚ) }) :=
  classify_monotone_in_freq_upto8 ⟨0, 0, 0, 0, 0, 0, 0, 0⟩ 0 8 (by norm_num) (by norm_num)

end NeuroPulse

namespace NeuroPulse

/-! ## Claim C9: severity class vs severity index -/

/-- C9, counterexample: across the firmware pipeline the class is not
monotone in the severity index.  Features `⟨15, 20, 0, ...⟩` give
severity index `min(100, max(0, 20*10 + 0*2)) = 100` but class
moderate, while features `⟨1, 1, 0, ..., zcr 0.4, entropy 30⟩` give
severity index 10 but class severe. -/
theorem severity_class_vs_index_counterexample :
    severityIndexFW 1 0 < severityIndexFW 20 0
    ∧ severityOrdinal (classifyTremor ⟨15, 20, 0, 0, 0, 0, 400, 0⟩)
        < severityOrdinal (classifyTremor ⟨1, 1, 0, 0, 0, 0.4, 1, 30⟩) := by
  have hA : classifyTremor ⟨15, 20, 0, 0, 0, 0, 400, 0⟩ = .moderate := by
    norm_num [classifyTremor, tremorScore]
  have hB : classifyTremor ⟨1, 1, 0, 0, 0, 0.4, 1, 30⟩ = .severe := by
    norm_num [classifyTremor, tremorScore]
  refine ⟨?_, by rw [hA, hB]; decide⟩
  have h1 : severityIndexFW 1 0 = 10 := by
    norm_num [severityIndexFW, min_def, max_def]
  have h2 : severityIndexFW 20 0 = 100 := by
    norm_num [severityIndexFW, min_def, max_def]
  rw [h1, h2]; norm_num

/-- C9, amended: for the server path (`generateEMGInsights`), which
derives the class by thresholding `severityIndex`, a higher severity
index gives the same or a more severe class; the firmware path instead
derives its class from the weighted feature score, independently of the
severity index, and is not monotone in it. -/
theorem insights_pattern_monotone_in_index (f g : ProcessedEMGFeatures)
    (h : f.severityIndex ≤ g.severityIndex) :
    severityOrdinal (generateEMGInsightsPattern f)
      ≤ severityOrdinal (generateEMGInsightsPattern g) := by
  unfold generateEMGInsightsPattern
  split_ifs <;> first | decide | (exfalso; linarith)

/-- C9, witness: the amended monotonicity at two concrete records with
severity indices 0 and 80. -/
theorem insights_pattern_monotone_in_index_witness :
    severityOrdinal (generateEMGInsightsPattern zeroEMGFeatures)
      ≤ severityOrdinal (generateEMGInsightsPattern
          { zeroEMGFeatures with severityIndex := (80 : ℝ) }) :=
  insights_pattern_monotone_in_index zeroEMGFeatures
    { zeroEMGFeatures with severityIndex := (80 : ℝ) } (by norm_num [zeroEMGFeatures])

end NeuroPulse

namespace NeuroPulse

/-! ## Claim C10: empty input -/

/-- C10: on the empty signal, `extractEMGFeatures` returns the all-zero
`ProcessedEMGFeatures` record (its explicit early-return), for every
sample rate: no NaN and no error. -/
theorem extractEMGFeatures_empty (sampleRate : ℝ) :
    extractEMGFeatures [] sampleRate = zeroEMGFeatures := rfl

end NeuroPulse

namespace NeuroPulse

/-! ## Helper lemmas for the spectral scan loop -/

/-- The scan loop leaves `dominantFreqBin` at 0 or at an in-band bin. -/
theorem bandScan_foldl_bin (mag freqf : ℕ → ℝ) (idxs : List ℕ) :
    ∀ s : ℝ × ℕ × ℝ,
      s.2.1 = 0 ∨ (3 ≤ freqf s.2.1 ∧ freqf s.2.1 ≤ 12) →
      (idxs.foldl (bandScanStep mag freqf) s).2.1 = 0
        ∨ (3 ≤ freqf (idxs.foldl (bandScanStep mag freqf) s).2.1
            ∧ freqf (idxs.foldl (bandScanStep mag freqf) s).2.1 ≤ 12) := by
  induction idxs with
  | nil => intro s hs; simpa using hs
  | cons i rest ih =>
    intro s hs
    simp only [List.foldl_cons]
    apply ih
    unfold bandScanStep
    split_ifs with hband hmax
    · exact Or.inr hband
    · exact hs
    · exact hs

/-- The scan loop's invariant: the running maximum and the total power
stay nonnegative, and a zero total power forces the bin to still be 0. -/
theorem bandScan_foldl_power (mag freqf : ℕ → ℝ) (hmag : ∀ i, 0 ≤ mag i)
    (idxs : List ℕ) :
    ∀ s : ℝ × ℕ × ℝ, 0 ≤ s.1 → 0 ≤ s.2.2 → (s.2.2 = 0 → s.1 = 0 ∧ s.2.1 = 0) →
      0 ≤ (idxs.foldl (bandScanStep mag freqf) s).1
      ∧ 0 ≤ (idxs.foldl (bandScanStep mag freqf) s).2.2
      ∧ ((idxs.foldl (bandScanStep mag freqf) s).2.2 = 0 →
          (idxs.foldl (bandScanStep mag freqf) s).1 = 0
          ∧ (idxs.foldl (bandScanStep mag freqf) s).2.1 = 0) := by
  induction idxs with
  | nil => intro s h1 h2 h3; exact ⟨h1, h2, h3⟩
  | cons i rest ih =>
    intro s h1 h2 h3
    simp only [List.foldl_cons]
    unfold bandScanStep
    split_ifs with hband hmax
    · refine ih _ (hmag i) (by dsimp only; exact add_nonneg h2 (hmag i)) ?_
      dsimp only
      intro h0
      exfalso
      have hmi : 0 ≤ mag i := hmag i
      have : mag i = 0 := by linarith
      have : (0 : ℝ) < mag i := lt_of_le_of_lt h1 hmax
      linarith
    · refine ih _ h1 (by dsimp only; exact add_nonneg h2 (hmag i)) ?_
      dsimp only
      intro h0
      have hmi : 0 ≤ mag i := hmag i
      have hz : s.2.2 = 0 := by linarith
      exact ⟨(h3 hz).1, (h3 hz).2⟩
    · exact ih _ h1 h2 h3

/-- `bandScan` ends with bin 0 or an in-band bin. -/
theorem bandScan_bin_zero_or_inband (mag freqf : ℕ → ℝ) (idxs : List ℕ) :
    (bandScan mag freqf idxs).2.1 = 0
      ∨ (3 ≤ freqf (bandScan mag freqf idxs).2.1
          ∧ freqf (bandScan mag freqf idxs).2.1 ≤ 12) :=
  bandScan_foldl_bin mag freqf idxs (0, 0, 0) (Or.inl rfl)

/-- If `bandScan`'s total power is 0 then its bin is still 0. -/
theorem bandScan_power_zero_bin (mag freqf : ℕ → ℝ) (hmag : ∀ i, 0 ≤ mag i)
    (idxs : List ℕ) (h : (bandScan mag freqf idxs).2.2 = 0) :
    (bandScan mag freqf idxs).2.1 = 0 :=
  ((bandScan_foldl_power mag freqf hmag idxs (0, 0, 0) le_rfl le_rfl
    (fun _ => ⟨rfl, rfl⟩)).2.2 h).2

/-- DFT magnitudes are nonnegative (they are square roots). -/
theorem magnitudeAt_nonneg (signal : List ℝ) (sampleRate : ℝ) (k : ℕ) :
    0 ≤ magnitudeAt signal sampleRate k :=
  Real.sqrt_nonneg _

/-- A list of nonnegative reals with zero sum is all zero. -/
theorem list_sum_zero_all_zero : ∀ {l : List ℝ}, (∀ v ∈ l, 0 ≤ v) → l.sum = 0 →
    ∀ v ∈ l, v = 0 := by
  intro l
  induction l with
  | nil => intro _ _ v hv; simp at hv
  | cons a t ih =>
    intro h0 hs v hv
    have ha : 0 ≤ a := h0 a (by simp)
    have ht : 0 ≤ t.sum := List.sum_nonneg (fun x hx => h0 x (by simp [hx]))
    have hsum : a + t.sum = 0 := by simpa using hs
    have ha0 : a = 0 := by linarith
    have hts : t.sum = 0 := by linarith
    rcases List.mem_cons.mp hv with h | h
    · rw [h, ha0]
    · exact ih (fun x hx => h0 x (by simp [hx])) hts v h

/-- The entropy fold does nothing on an all-zero signal (each
`normalized` is `0`, below the `0.001` threshold). -/
theorem entropyOf_all_zero {l : List ℝ} (h : ∀ v ∈ l, v = 0) (r : ℝ) :
    entropyOf l r = 0 := by
  have aux : ∀ (l' : List ℝ), (∀ v ∈ l', v = 0) → ∀ acc : ℝ,
      l'.foldl
        (fun e v => if |v| / r > 0.001 then e - |v| / r * Real.log (|v| / r) else e) acc
        = acc := by
    intro l'
    induction l' with
    | nil => intro _ acc; rfl
    | cons a t ih =>
      intro hall acc
      have ha : a = 0 := hall a (by simp)
      have hcond : ¬(|a| / r > 0.001) := by
        rw [ha]
        simp only [abs_zero, zero_div]
        norm_num
      simp only [List.foldl_cons, if_neg hcond]
      exact ih (fun v hv => hall v (by simp [hv])) acc
  exact aux l h 0

/-- If the RMS amplitude of a signal is 0, every sample is 0. -/
theorem all_zero_of_rms_zero {signal : List ℝ} (h : rmsAmplitudeOf signal = 0) :
    ∀ v ∈ signal, v = 0 := by
  intro v hv
  have hlen : 0 < (signal.length : ℝ) := by
    cases signal with
    | nil => simp at hv
    | cons a t =>
      simp only [List.length_cons]
      positivity
  have hms : meanSquareOf signal ≤ 0 := Real.sqrt_eq_zero'.mp h
  have hsq : ∀ x ∈ signal.map (fun v => v * v), 0 ≤ x := by
    intro x hx
    rcases List.mem_map.mp hx with ⟨w, _, hw⟩
    rw [← hw]; exact mul_self_nonneg w
  have hsum_nonneg : 0 ≤ (signal.map (fun v => v * v)).sum := List.sum_nonneg hsq
  have hsum_zero : (signal.map (fun v => v * v)).sum = 0 := by
    by_contra hne
    have hpos : 0 < (signal.map (fun v => v * v)).sum := lt_of_le_of_ne hsum_nonneg (Ne.symm hne)
    have : 0 < meanSquareOf signal := div_pos hpos hlen
    linarith
  have := list_sum_zero_all_zero hsq hsum_zero (v * v) (List.mem_map.mpr ⟨v, hv, rfl⟩)
  exact mul_self_eq_zero.mp this

end NeuroPulse

namespace NeuroPulse

/-! ## Claim C2: feature-vector invariants -/

/-- C2, counterexample: entropy is not always nonnegative.  On the
window `[3, 0]` the single contributing term has
`normalized = 3 / sqrt(9/2) = sqrt 2 > 1`, so
`entropy = -normalized * log(normalized) < 0`. -/
theorem extractFeatures_entropy_negative :
    (extractFeatures [3, 0]).entropy < 0 := by
  have hfield : (extractFeatures [3, 0]).entropy
      = entropyOf [3, 0] (rmsAmplitudeOf [3, 0]) := rfl
  rw [hfield]
  have hms : meanSquareOf [3, 0] = 9 / 2 := by norm_num [meanSquareOf]
  have hrms : rmsAmplitudeOf [3, 0] = Real.sqrt (9 / 2) := by
    rw [rmsAmplitudeOf, hms]
  rw [hrms]
  have hpos : (0 : ℝ) < Real.sqrt (9 / 2) := Real.sqrt_pos.mpr (by norm_num)
  have hlt3 : Real.sqrt (9 / 2) < 3 := by
    have h1 : Real.sqrt (9 / 2) < Real.sqrt 9 :=
      Real.sqrt_lt_sqrt (by norm_num) (by norm_num)
    have h2 : Real.sqrt 9 = 3 := by
      rw [show (9 : ℝ) = 3 ^ 2 by norm_num]
      exact Real.sqrt_sq (by norm_num)
    linarith
  have hp1 : 1 < 3 / Real.sqrt (9 / 2) := by
    rw [lt_div_iff₀ hpos]; linarith
  have c1 : |(3 : ℝ)| / Real.sqrt (9 / 2) > 0.001 := by
    rw [abs_of_pos (by norm_num : (0 : ℝ) < 3)]
    linarith
  have c2 : ¬(|(0 : ℝ)| / Real.sqrt (9 / 2) > 0.001) := by
    rw [abs_zero, zero_div]
    norm_num
  have hfold : entropyOf [3, 0] (Real.sqrt (9 / 2))
      = 0 - |(3 : ℝ)| / Real.sqrt (9 / 2)
          * Real.log (|(3 : ℝ)| / Real.sqrt (9 / 2)) := by
    unfold entropyOf
    simp only [List.foldl_cons, List.foldl_nil]
    rw [if_pos c1, if_neg c2]
  rw [hfold, abs_of_pos (by norm_num : (0 : ℝ) < 3)]
  have h3r : 0 < 3 / Real.sqrt (9 / 2) := by positivity
  have hlog : 0 < Real.log (3 / Real.sqrt (9 / 2)) := Real.log_pos hp1
  have := mul_pos h3r hlog
  linarith

/-- C2, amended: for every window, `rmsAmplitude >= 0` holds, and
`dominantFrequency` is either 0 or lies within `[3, 12]` Hz.  The
entropy invariant fails: `entropy` can be negative, since the entropy
terms `|x| / rms` may exceed 1. -/
theorem extractFeatures_rms_nonneg_domfreq_inband (signal : List ℝ) :
    0 ≤ (extractFeatures signal).rmsAmplitude
    ∧ ((extractFeatures signal).dominantFrequency = 0
        ∨ (3 ≤ (extractFeatures signal).dominantFrequency
            ∧ (extractFeatures signal).dominantFrequency ≤ 12)) := by
  constructor
  · exact Real.sqrt_nonneg _
  · have hfield : (extractFeatures signal).dominantFrequency
        = (cppDominantFreqBin signal : ℝ) * SAMPLE_RATE / signal.length := rfl
    rw [hfield]
    rcases bandScan_bin_zero_or_inband (magnitudeAt signal SAMPLE_RATE)
        (binFrequency SAMPLE_RATE signal.length)
        (binIndices (numBinsCpp signal.length)) with h0 | hband
    · left
      have hb : cppDominantFreqBin signal = 0 := h0
      rw [hb]
      simp
    · right
      have hb : binFrequency SAMPLE_RATE signal.length (cppDominantFreqBin signal)
          = (cppDominantFreqBin signal : ℝ) * SAMPLE_RATE / signal.length := rfl
      exact ⟨by rw [← hb]; exact hband.1, by rw [← hb]; exact hband.2⟩

end NeuroPulse

namespace NeuroPulse

/-! ## Claim C5: the severity index -/

/-- C5, counterexample: the server record's `severityIndex` does not
equal `clamp(rms*10 + freq*2, 0, 100)`.  On the window `[100, 100]` the
TS pipeline yields `rms = 100`, `dominantFrequency = 0` and
`severityIndex = 50` (its own formula), while the claimed firmware
formula gives `clamp(1000, 0, 100) = 100`. -/
theorem tsSeverityIndex_differs_from_firmware_formula :
    (extractEMGFeatures [100, 100] 200).severityIndex
      ≠ min 100 (max 0 ((extractEMGFeatures [100, 100] 200).rmsAmplitude * 10
          + (extractEMGFeatures [100, 100] 200).dominantFrequency * 2)) := by
  have hlen : ¬(([100, 100] : List ℝ).length = 0) := by simp
  have hrms : rmsAmplitudeOf [100, 100] = 100 := by
    have hms : meanSquareOf [100, 100] = 10000 := by norm_num [meanSquareOf]
    rw [rmsAmplitudeOf, hms, show (10000 : ℝ) = 100 ^ 2 by norm_num]
    exact Real.sqrt_sq (by norm_num)
  have hbin : tsDominantFreqBin [100, 100] 200 = 0 := rfl
  have hdf : tsDominantFrequency [100, 100] 200 = 0 := by
    unfold tsDominantFrequency
    rw [hbin]
    have hz : binFrequency 200 ([100, 100] : List ℝ).length 0 = 0 := by
      simp [binFrequency]
    rw [hz]
    simp
  have hzc : zeroCrossingRateOf [100, 100] = 0 := by
    have hc : zeroCrossCount [100, 100] = 0 := by
      norm_num [zeroCrossCount]
    rw [zeroCrossingRateOf, hc]
    simp
  have hsev : tsSeverityIndex [100, 100] 200 = 50 := by
    unfold tsSeverityIndex
    rw [hrms, hdf, hzc]
    norm_num [min_def, max_def]
  have hfields : (extractEMGFeatures [100, 100] 200).severityIndex = 50
      ∧ (extractEMGFeatures [100, 100] 200).rmsAmplitude = 100
      ∧ (extractEMGFeatures [100, 100] 200).dominantFrequency = 0 := by
    unfold extractEMGFeatures
    rw [if_neg hlen]
    exact ⟨hsev, hrms, hdf⟩
  rw [hfields.1, hfields.2.1, hfields.2.2]
  norm_num [min_def, max_def]

/-- C5, amended: the *firmware* record's severity index equals
`clamp(rms*10 + freq*2, 0, 100)` and lies within `[0, 100]`; the server
(`extractEMGFeatures`) severity index uses a different formula
(`clamp(rms/100*50 + freq/10*30 + zcr*100*20, 0, 100)`) but also always
lies within `[0, 100]`. -/
theorem severityIndex_formulas_and_bounds :
    (∀ rms freq : ℚ, severityIndexFW rms freq = min 100 (max 0 (rms * 10 + freq * 2))
        ∧ 0 ≤ severityIndexFW rms freq ∧ severityIndexFW rms freq ≤ 100)
    ∧ ∀ (signal : List ℝ) (sampleRate : ℝ),
        0 ≤ (extractEMGFeatures signal sampleRate).severityIndex
        ∧ (extractEMGFeatures signal sampleRate).severityIndex ≤ 100 := by
  constructor
  · intro rms freq
    exact ⟨rfl, le_min (by norm_num) (le_max_left 0 _), min_le_left _ _⟩
  · intro signal sampleRate
    unfold extractEMGFeatures
    split_ifs with h
    · norm_num [zeroEMGFeatures]
    · dsimp only
      unfold tsSeverityIndex
      exact ⟨le_min (by norm_num) (le_max_left 0 _), min_le_left _ _⟩

end NeuroPulse

namespace NeuroPulse

/-! ## Claim C7: division-by-zero guards -/

/-- C7: if the in-band total spectral power is 0, both the spectral
centroid and the dominant frequency are 0; if the RMS amplitude is 0,
the entropy is 0 (in the exact-arithmetic model no division by zero is
ever performed: the centroid is guarded by `totalPower > 0`, and a zero
RMS forces an all-zero window whose entropy terms all fall below the
`0.001` threshold). -/
theorem extractFeatures_zero_guards (signal : List ℝ) :
    ((extractFeatures signal).frequencyPower = 0 →
      (extractFeatures signal).spectralCentroid = 0
      ∧ (extractFeatures signal).dominantFrequency = 0)
    ∧ ((extractFeatures signal).rmsAmplitude = 0 →
        (extractFeatures signal).entropy = 0) := by
  constructor
  · intro hp
    have hp' : cppTotalPower signal = 0 := hp
    constructor
    · have hc : (extractFeatures signal).spectralCentroid
          = cppSpectralCentroid signal := rfl
      rw [hc]
      unfold cppSpectralCentroid
      rw [hp']
      norm_num
    · have hd : (extractFeatures signal).dominantFrequency
          = (cppDominantFreqBin signal : ℝ) * SAMPLE_RATE / signal.length := rfl
      rw [hd]
      have hb : cppDominantFreqBin signal = 0 :=
        bandScan_power_zero_bin _ _ (magnitudeAt_nonneg signal SAMPLE_RATE) _ hp'
      rw [hb]
      simp
  · intro hr
    have hall := all_zero_of_rms_zero (hr : rmsAmplitudeOf signal = 0)
    exact entropyOf_all_zero hall _

/-- C7, witness: the zero-power and zero-RMS guards evaluated on the
concrete window `[0, 0]`. -/
theorem extractFeatures_zero_guards_witness :
    (extractFeatures [0, 0]).spectralCentroid = 0
    ∧ (extractFeatures [0, 0]).dominantFrequency = 0
    ∧ (extractFeatures [0, 0]).entropy = 0 := by
  have h := extractFeatures_zero_guards [0, 0]
  have hp : (extractFeatures [0, 0]).frequencyPower = 0 := rfl
  have hr : (extractFeatures [0, 0]).rmsAmplitude = 0 := by
    have hms : meanSquareOf [0, 0] = 0 := by norm_num [meanSquareOf]
    have : (extractFeatures [0, 0]).rmsAmplitude = rmsAmplitudeOf [0, 0] := rfl
    rw [this, rmsAmplitudeOf, hms, Real.sqrt_zero]
  exact ⟨(h.1 hp).1, (h.1 hp).2, h.2 hr⟩

end NeuroPulse

namespace NeuroPulse

/-! ## Helper lemmas for the dominant-frequency round trip (C4): the
DFT of the 5 Hz test sine reduces to two geometric sums of roots of
unity, whose norms are quotients of sines, bounded numerically. -/

theorem two_I_sin (a : ℝ) :
    Complex.exp ((a : ℂ) * Complex.I) - Complex.exp ((↑(-a) : ℂ) * Complex.I)
      = 2 * ↑(Real.sin a) * Complex.I := by
  rw [Complex.exp_mul_I, Complex.exp_mul_I]
  rw [← Complex.ofReal_cos, ← Complex.ofReal_sin, ← Complex.ofReal_cos, ← Complex.ofReal_sin]
  rw [Real.cos_neg, Real.sin_neg]
  push_cast
  ring

theorem norm_exp_mul_I_sub_one (θ : ℝ) :
    Complex.abs (Complex.exp ((θ : ℂ) * Complex.I) - 1) = 2 * |Real.sin (θ / 2)| := by
  have h3 := two_I_sin (θ / 2)
  have hsplit : Complex.exp ((θ : ℂ) * Complex.I)
      = Complex.exp ((↑(θ / 2) : ℂ) * Complex.I) * Complex.exp ((↑(θ / 2) : ℂ) * Complex.I) := by
    rw [← Complex.exp_add]
    congr 1
    push_cast
    ring
  have hone : Complex.exp ((↑(θ / 2) : ℂ) * Complex.I)
        * Complex.exp ((↑(-(θ / 2)) : ℂ) * Complex.I) = 1 := by
    rw [← Complex.exp_add]
    rw [show ((↑(θ / 2) : ℂ) * Complex.I + (↑(-(θ / 2)) : ℂ) * Complex.I) = 0 by push_cast; ring]
    exact Complex.exp_zero
  have key : Complex.exp ((θ : ℂ) * Complex.I) - 1
      = Complex.exp ((↑(θ / 2) : ℂ) * Complex.I) * (2 * ↑(Real.sin (θ / 2)) * Complex.I) := by
    linear_combination hsplit + Complex.exp ((↑(θ / 2) : ℂ) * Complex.I) * h3 + hone
  rw [key, map_mul, Complex.abs_exp_ofReal_mul_I, one_mul, map_mul, map_mul,
    Complex.abs_two, Complex.abs_I, Complex.abs_ofReal, mul_one]

theorem exp_pi_int_ne_one (m : ℤ) (h0 : m ≠ 0) (habs : |m| < 1280) :
    Complex.exp ((↑(Real.pi * m / 640) : ℂ) * Complex.I) ≠ 1 := by
  intro hmem
  rw [Complex.exp_eq_one_iff] at hmem
  obtain ⟨n, hn⟩ := hmem
  rw [show ((n : ℂ) * (2 * ↑Real.pi * Complex.I)) = (↑((n : ℝ) * (2 * Real.pi)) : ℂ) * Complex.I
    by push_cast; ring] at hn
  have hI := mul_right_cancel₀ Complex.I_ne_zero hn
  have hreal : Real.pi * m / 640 = n * (2 * Real.pi) := by exact_mod_cast hI
  have h1 : Real.pi * (m : ℝ) = Real.pi * (1280 * n) := by linear_combination 640 * hreal
  have h2 : (m : ℝ) = 1280 * n := mul_left_cancel₀ Real.pi_ne_zero h1
  have hmz : m = 1280 * n := by exact_mod_cast h2
  rcases eq_or_ne n 0 with hn0 | hn0
  · rw [hn0, mul_zero] at hmz
    exact h0 hmz
  · have h1n : (1 : ℤ) ≤ |n| := Int.one_le_abs hn0
    rw [hmz, abs_mul, show |(1280 : ℤ)| = 1280 by norm_num] at habs
    linarith

theorem expGeomSum_abs (m : ℤ) (h0 : m ≠ 0) (habs : |m| < 1280) :
    Complex.abs (expGeomSum m)
      = |Real.sin (Real.pi * m / 5)| / |Real.sin (Real.pi * m / 1280)| := by
  rw [expGeomSum, geom_sum_eq (exp_pi_int_ne_one m h0 habs), map_div₀]
  rw [← Complex.exp_nat_mul]
  rw [show ((256 : ℕ) : ℂ) * ((↑(Real.pi * m / 640) : ℂ) * Complex.I)
      = (↑(256 * (Real.pi * m / 640)) : ℝ) * Complex.I by push_cast; ring]
  rw [norm_exp_mul_I_sub_one, norm_exp_mul_I_sub_one]
  rw [show (256 * (Real.pi * m / 640)) / 2 = Real.pi * m / 5 by ring]
  rw [show (Real.pi * m / 640) / 2 = Real.pi * m / 1280 by ring]
  rw [mul_div_mul_left _ _ (two_ne_zero)]

theorem sineWave_length : sineWave.length = 256 := by
  rw [sineWave, List.length_map, List.length_range]

theorem sineWave_getD (t : ℕ) (ht : t < 256) :
    sineWave.getD t 0 = Real.sin (2 * Real.pi * 5 * t / 200) := by
  have hlen : t < sineWave.length := by rw [sineWave_length]; exact ht
  rw [sineWave] at hlen ⊢
  rw [List.getD_eq_getElem _ _ hlen, List.getElem_map, List.getElem_range]

theorem dft_sum_eq (signal : List ℝ) (sr f : ℝ) :
    (dftRealPart signal sr f : ℂ) + (dftImagPart signal sr f : ℂ) * Complex.I
      = ∑ t ∈ Finset.range signal.length,
          (signal.getD t 0 : ℂ) * Complex.exp ((↑(dftAngle sr f t) : ℂ) * Complex.I) := by
  rw [dftRealPart, dftImagPart]
  push_cast
  rw [Finset.sum_mul, ← Finset.sum_add_distrib]
  refine Finset.sum_congr rfl (fun t _ => ?_)
  rw [Complex.exp_mul_I, ← Complex.ofReal_cos, ← Complex.ofReal_sin]
  ring

theorem magnitudeAt_eq_abs (signal : List ℝ) (sr : ℝ) (k : ℕ) :
    magnitudeAt signal sr k
      = Complex.abs ((dftRealPart signal sr (binFrequency sr signal.length k) : ℂ)
          + (dftImagPart signal sr (binFrequency sr signal.length k) : ℂ) * Complex.I) := by
  rw [magnitudeAt, Complex.abs_apply, Complex.normSq_add_mul_I]
  congr 1
  ring

theorem sine_summand (k t : ℕ) :
    (Real.sin (Real.pi * t / 20) : ℂ)
        * Complex.exp ((↑(-(Real.pi * k * t) / 128) : ℂ) * Complex.I)
      = (Complex.exp ((↑(Real.pi * ((32 : ℤ) - 5 * k) / 640) : ℂ) * Complex.I) ^ t
          - Complex.exp ((↑(Real.pi * (-((32 : ℤ) + 5 * k)) / 640) : ℂ) * Complex.I) ^ t)
        / (2 * Complex.I) := by
  have h2I : (2 * Complex.I) ≠ 0 := by simp [Complex.I_ne_zero]
  rw [eq_div_iff h2I]
  rw [← Complex.exp_nat_mul, ← Complex.exp_nat_mul]
  have e1 : ((t : ℂ)) * ((↑(Real.pi * ((32 : ℤ) - 5 * k) / 640) : ℂ) * Complex.I)
      = (↑(Real.pi * t / 20) : ℂ) * Complex.I
        + (↑(-(Real.pi * k * t) / 128) : ℂ) * Complex.I := by
    push_cast
    ring
  have e2 : ((t : ℂ)) * ((↑(Real.pi * (-((32 : ℤ) + 5 * k)) / 640) : ℂ) * Complex.I)
      = (↑(-(Real.pi * t / 20)) : ℂ) * Complex.I
        + (↑(-(Real.pi * k * t) / 128) : ℂ) * Complex.I := by
    push_cast
    ring
  rw [e1, e2, Complex.exp_add, Complex.exp_add]
  have h3 := two_I_sin (Real.pi * t / 20)
  linear_combination (-(Complex.exp ((↑(-(Real.pi * k * t) / 128) : ℂ) * Complex.I))) * h3

theorem dft_sine_sum (k : ℕ) :
    ∑ t ∈ Finset.range 256, (Real.sin (Real.pi * t / 20) : ℂ)
        * Complex.exp ((↑(-(Real.pi * k * t) / 128) : ℂ) * Complex.I)
      = (expGeomSum ((32 : ℤ) - 5 * k) - expGeomSum (-((32 : ℤ) + 5 * k))) / (2 * Complex.I) := by
  rw [expGeomSum, expGeomSum, ← Finset.sum_sub_distrib, Finset.sum_div]
  exact Finset.sum_congr rfl (fun t _ => by
    rw [sine_summand k t]
    norm_num)

theorem magnitudeAt_sineWave (k : ℕ) :
    magnitudeAt sineWave 200 k
      = Complex.abs (expGeomSum ((32 : ℤ) - 5 * k) - expGeomSum (-((32 : ℤ) + 5 * k))) / 2 := by
  rw [magnitudeAt_eq_abs, dft_sum_eq, sineWave_length]
  have hcong : ∀ t ∈ Finset.range 256,
      (sineWave.getD t 0 : ℂ)
          * Complex.exp ((↑(dftAngle 200 (binFrequency 200 256 k) t) : ℂ) * Complex.I)
        = (Real.sin (Real.pi * t / 20) : ℂ)
            * Complex.exp ((↑(-(Real.pi * k * t) / 128) : ℂ) * Complex.I) := by
    intro t ht
    have ht' : t < 256 := Finset.mem_range.mp ht
    rw [sineWave_getD t ht']
    have harg : 2 * Real.pi * 5 * t / 200 = Real.pi * t / 20 := by ring
    have hang : dftAngle 200 (binFrequency 200 256 k) t
        = -(Real.pi * k * t) / 128 := by
      rw [dftAngle, binFrequency]
      push_cast
      ring
    rw [harg, hang]
  rw [Finset.sum_congr rfl hcong, dft_sine_sum, map_div₀]
  congr 1
  rw [map_mul, Complex.abs_two, Complex.abs_I, mul_one]

theorem sin_two_pi_fifth : (0.94 : ℝ) ≤ Real.sin (Real.pi * 2 / 5) := by
  have h : Real.pi * 2 / 5 = Real.pi / 2 - Real.pi / 10 := by ring
  rw [h, Real.sin_pi_div_two_sub]
  have hid : Real.pi / 10 = 2 * (Real.pi / 20) := by ring
  have hsc := Real.sin_sq_add_cos_sq (Real.pi / 20)
  have h2 := Real.cos_two_mul (Real.pi / 20)
  have hcos : Real.cos (Real.pi / 10) = 1 - 2 * Real.sin (Real.pi / 20) ^ 2 := by
    rw [hid, h2]
    linarith
  rw [hcos]
  have hsin_le : Real.sin (Real.pi / 20) ≤ Real.pi / 20 :=
    le_of_lt (Real.sin_lt (by positivity))
  have hsin_nonneg : 0 ≤ Real.sin (Real.pi / 20) :=
    Real.sin_nonneg_of_nonneg_of_le_pi (by positivity) (by linarith [Real.pi_pos])
  have hsq : Real.sin (Real.pi / 20) ^ 2 ≤ (Real.pi / 20) ^ 2 :=
    pow_le_pow_left₀ hsin_nonneg hsin_le 2
  have hb : (Real.pi / 20) ^ 2 ≤ (3.141593 / 20) ^ 2 :=
    pow_le_pow_left₀ (by positivity) (by linarith [Real.pi_lt_d6]) 2
  have hc : ((3.141593 / 20 : ℝ)) ^ 2 ≤ 0.0246741 := by norm_num
  linarith

-- |sin(pi*m/1280)| for integer m with natAbs at most 640 equals sin at the natAbs

theorem abs_sin_int_1280 (m : ℤ) (hub : m.natAbs ≤ 640) :
    |Real.sin (Real.pi * m / 1280)| = Real.sin (Real.pi * m.natAbs / 1280) := by
  have hcast : ((m.natAbs : ℝ)) = |(m : ℝ)| := by
    rw [Int.cast_natAbs, Int.cast_abs]
  have hub' : |(m : ℝ)| ≤ 640 := by
    rw [← hcast]
    exact_mod_cast hub
  have hnn : 0 ≤ Real.sin (Real.pi * |(m : ℝ)| / 1280) := by
    apply Real.sin_nonneg_of_nonneg_of_le_pi (by positivity)
    nlinarith [Real.pi_pos, abs_nonneg (m : ℝ)]
  rw [hcast]
  rcases abs_cases (m : ℝ) with ⟨h1, h2⟩ | ⟨h1, h2⟩
  · rw [h1] at hnn ⊢
    exact abs_of_nonneg hnn
  · rw [h1] at hnn ⊢
    rw [show Real.pi * -(m : ℝ) / 1280 = -(Real.pi * m / 1280) by ring, Real.sin_neg] at hnn ⊢
    rw [abs_of_nonpos (by linarith)]

theorem sin_pi_nat_1280_mono {a b : ℕ} (hab : a ≤ b) (hb : b ≤ 640) :
    Real.sin (Real.pi * a / 1280) ≤ Real.sin (Real.pi * b / 1280) := by
  have har : (a : ℝ) ≤ b := by exact_mod_cast hab
  have hbr : (b : ℝ) ≤ 640 := by exact_mod_cast hb
  have hmem1 : Real.pi * a / 1280 ∈ Set.Icc (-(Real.pi / 2)) (Real.pi / 2) := by
    constructor
    · have : (0:ℝ) ≤ Real.pi * a / 1280 := by positivity
      linarith [Real.pi_pos]
    · nlinarith [Real.pi_pos]
  have hmem2 : Real.pi * b / 1280 ∈ Set.Icc (-(Real.pi / 2)) (Real.pi / 2) := by
    constructor
    · have : (0:ℝ) ≤ Real.pi * b / 1280 := by positivity
      linarith [Real.pi_pos]
    · nlinarith [Real.pi_pos]
  have harg : Real.pi * a / 1280 ≤ Real.pi * b / 1280 := by
    have := Real.pi_pos
    apply div_le_div_of_nonneg_right ?_ (by norm_num)
    · nlinarith
  exact Real.strictMonoOn_sin.monotoneOn hmem1 hmem2 harg

theorem abs_sin_le_one' (x : ℝ) : |Real.sin x| ≤ 1 :=
  abs_le.mpr ⟨Real.neg_one_le_sin x, Real.sin_le_one x⟩

theorem sin_3_1280_lb : (0.00736 : ℝ) ≤ Real.sin (Real.pi * 3 / 1280) := by
  have h0 : 0 < Real.pi * 3 / 1280 := by positivity
  have hxlo : (0.0073631 : ℝ) ≤ Real.pi * 3 / 1280 := by linarith [Real.pi_gt_d6]
  have hxhi : Real.pi * 3 / 1280 ≤ 0.0073632 := by linarith [Real.pi_lt_d6]
  have h1 : Real.pi * 3 / 1280 ≤ 1 := by linarith
  have hcube := Real.sin_gt_sub_cube h0 h1
  have hc : (Real.pi * 3 / 1280) ^ 3 ≤ (0.0073632 : ℝ) ^ 3 :=
    pow_le_pow_left₀ (le_of_lt h0) hxhi 3
  have hc2 : ((0.0073632 : ℝ)) ^ 3 ≤ 0.0000004 := by norm_num
  linarith

theorem sin_52_1280_lb : (0.1271 : ℝ) ≤ Real.sin (Real.pi * 52 / 1280) := by
  have h0 : 0 < Real.pi * 52 / 1280 := by positivity
  have hxlo : (0.127627 : ℝ) ≤ Real.pi * 52 / 1280 := by linarith [Real.pi_gt_d6]
  have hxhi : Real.pi * 52 / 1280 ≤ 0.1276273 := by linarith [Real.pi_lt_d6]
  have h1 : Real.pi * 52 / 1280 ≤ 1 := by linarith
  have hcube := Real.sin_gt_sub_cube h0 h1
  have hc : (Real.pi * 52 / 1280) ^ 3 ≤ (0.1276273 : ℝ) ^ 3 :=
    pow_le_pow_left₀ (le_of_lt h0) hxhi 3
  have hc2 : ((0.1276273 : ℝ)) ^ 3 ≤ 0.0020791 := by norm_num
  linarith

theorem sin_62_1280_lb : (0.1512 : ℝ) ≤ Real.sin (Real.pi * 62 / 1280) := by
  have h0 : 0 < Real.pi * 62 / 1280 := by positivity
  have hxlo : (0.1521708 : ℝ) ≤ Real.pi * 62 / 1280 := by linarith [Real.pi_gt_d6]
  have hxhi : Real.pi * 62 / 1280 ≤ 0.1521710 := by linarith [Real.pi_lt_d6]
  have h1 : Real.pi * 62 / 1280 ≤ 1 := by linarith
  have hcube := Real.sin_gt_sub_cube h0 h1
  have hc : (Real.pi * 62 / 1280) ^ 3 ≤ (0.1521710 : ℝ) ^ 3 :=
    pow_le_pow_left₀ (le_of_lt h0) hxhi 3
  have hc2 : ((0.1521710 : ℝ)) ^ 3 ≤ 0.0035238 := by norm_num
  linarith

theorem expGeomSum_two_lb : (191 : ℝ) ≤ Complex.abs (expGeomSum 2) := by
  rw [expGeomSum_abs 2 (by norm_num) (by norm_num)]
  have hc : ((2 : ℤ) : ℝ) = 2 := by norm_num
  rw [hc]
  have hnum_nonneg : 0 ≤ Real.sin (Real.pi * 2 / 5) := by
    apply Real.sin_nonneg_of_nonneg_of_le_pi (by positivity)
    nlinarith [Real.pi_pos]
  have hden_pos : 0 < Real.sin (Real.pi * 2 / 1280) := by
    apply Real.sin_pos_of_pos_of_lt_pi (by positivity)
    nlinarith [Real.pi_pos]
  rw [abs_of_nonneg hnum_nonneg, abs_of_pos hden_pos, le_div_iff₀ hden_pos]
  have hden_le : Real.sin (Real.pi * 2 / 1280) ≤ Real.pi * 2 / 1280 :=
    le_of_lt (Real.sin_lt (by positivity))
  have h94 := sin_two_pi_fifth
  nlinarith [Real.pi_lt_d6]

theorem expGeomSum_neg62_ub : Complex.abs (expGeomSum (-62)) ≤ 7 := by
  rw [expGeomSum_abs (-62) (by norm_num) (by norm_num)]
  have hden_eq : |Real.sin (Real.pi * ((-62 : ℤ) : ℝ) / 1280)|
      = Real.sin (Real.pi * ((-62 : ℤ).natAbs : ℝ) / 1280) := abs_sin_int_1280 (-62) (by norm_num)
  have hna : (((-62 : ℤ).natAbs : ℝ)) = 62 := by norm_num
  rw [hna] at hden_eq
  rw [hden_eq]
  have hden_pos : (0 : ℝ) < Real.sin (Real.pi * 62 / 1280) := by
    linarith [sin_62_1280_lb]
  rw [div_le_iff₀ hden_pos]
  have hnum := abs_sin_le_one' (Real.pi * ((-62 : ℤ) : ℝ) / 5)
  nlinarith [sin_62_1280_lb]

theorem expGeomSum_m1_ub (m : ℤ) (h3 : 3 ≤ m.natAbs) (h43 : m.natAbs ≤ 43) :
    Complex.abs (expGeomSum m) ≤ 137 := by
  have h0 : m ≠ 0 := by
    intro h
    rw [h] at h3
    simp at h3
  have habs : |m| < 1280 := by
    rw [Int.abs_eq_natAbs]
    exact_mod_cast Nat.lt_of_le_of_lt h43 (by norm_num)
  rw [expGeomSum_abs m h0 habs]
  have hden_eq := abs_sin_int_1280 m (le_trans h43 (by norm_num))
  rw [hden_eq]
  have hmono := sin_pi_nat_1280_mono h3 (le_trans h43 (by norm_num))
  have hlb := sin_3_1280_lb
  have hden_pos : (0 : ℝ) < Real.sin (Real.pi * m.natAbs / 1280) := by linarith
  rw [div_le_iff₀ hden_pos]
  have hnum := abs_sin_le_one' (Real.pi * m / 5)
  nlinarith

theorem expGeomSum_m2_ub (m : ℤ) (h52 : 52 ≤ m.natAbs) (h107 : m.natAbs ≤ 107) :
    Complex.abs (expGeomSum m) ≤ 8 := by
  have h0 : m ≠ 0 := by
    intro h
    rw [h] at h52
    simp at h52
  have habs : |m| < 1280 := by
    rw [Int.abs_eq_natAbs]
    exact_mod_cast Nat.lt_of_le_of_lt h107 (by norm_num)
  rw [expGeomSum_abs m h0 habs]
  have hden_eq := abs_sin_int_1280 m (le_trans h107 (by norm_num))
  rw [hden_eq]
  have hmono := sin_pi_nat_1280_mono h52 (le_trans h107 (by norm_num))
  have hlb := sin_52_1280_lb
  have hden_pos : (0 : ℝ) < Real.sin (Real.pi * m.natAbs / 1280) := by linarith
  rw [div_le_iff₀ hden_pos]
  have hnum := abs_sin_le_one' (Real.pi * m / 5)
  nlinarith

theorem mag6_lb : (90 : ℝ) ≤ magnitudeAt sineWave 200 6 := by
  rw [magnitudeAt_sineWave 6]
  have he1 : ((32 : ℤ) - 5 * (6 : ℕ)) = 2 := by norm_num
  have he2 : (-((32 : ℤ) + 5 * (6 : ℕ))) = -62 := by norm_num
  rw [he1, he2]
  have h1 := expGeomSum_two_lb
  have h2 := expGeomSum_neg62_ub
  have htri : Complex.abs (expGeomSum 2) - Complex.abs (expGeomSum (-62))
      ≤ Complex.abs (expGeomSum 2 - expGeomSum (-62)) := by
    simpa [Complex.norm_eq_abs] using norm_sub_norm_le (expGeomSum 2) (expGeomSum (-62))
  linarith

theorem mag_band_ub (j : ℕ) (h4 : 4 ≤ j) (h15 : j ≤ 15) (h6 : j ≠ 6) :
    magnitudeAt sineWave 200 j ≤ 80 := by
  rw [magnitudeAt_sineWave j]
  have hm1a : 3 ≤ ((32 : ℤ) - 5 * (j : ℤ)).natAbs := by omega
  have hm1b : ((32 : ℤ) - 5 * (j : ℤ)).natAbs ≤ 43 := by omega
  have hm2a : 52 ≤ (-((32 : ℤ) + 5 * (j : ℤ))).natAbs := by omega
  have hm2b : (-((32 : ℤ) + 5 * (j : ℤ))).natAbs ≤ 107 := by omega
  have h1 := expGeomSum_m1_ub _ hm1a hm1b
  have h2 := expGeomSum_m2_ub _ hm2a hm2b
  have htri : Complex.abs (expGeomSum ((32 : ℤ) - 5 * j) - expGeomSum (-((32 : ℤ) + 5 * j)))
      ≤ Complex.abs (expGeomSum ((32 : ℤ) - 5 * j))
        + Complex.abs (expGeomSum (-((32 : ℤ) + 5 * j))) := by
    simpa [Complex.norm_eq_abs] using
      norm_sub_le (expGeomSum ((32 : ℤ) - 5 * j)) (expGeomSum (-((32 : ℤ) + 5 * j)))
  linarith

theorem bandScan_foldl_lt (mag freqf : ℕ → ℝ) (M : ℝ) :
    ∀ (l : List ℕ) (s : ℝ × ℕ × ℝ), s.1 < M →
      (∀ j ∈ l, 3 ≤ freqf j → freqf j ≤ 12 → mag j < M) →
      (l.foldl (bandScanStep mag freqf) s).1 < M := by
  intro l
  induction l with
  | nil => intro s hs _; simpa using hs
  | cons i rest ih =>
    intro s hs hl
    simp only [List.foldl_cons]
    apply ih
    · unfold bandScanStep
      split_ifs with hband hmax
      · exact hl i (by simp) hband.1 hband.2
      · exact hs
      · exact hs
    · intro j hj h3 h12
      exact hl j (by simp [hj]) h3 h12

theorem bandScan_foldl_fix (mag freqf : ℕ → ℝ) :
    ∀ (l : List ℕ) (s : ℝ × ℕ × ℝ),
      (∀ j ∈ l, 3 ≤ freqf j → freqf j ≤ 12 → mag j ≤ s.1) →
      (l.foldl (bandScanStep mag freqf) s).1 = s.1
      ∧ (l.foldl (bandScanStep mag freqf) s).2.1 = s.2.1 := by
  intro l
  induction l with
  | nil => intro s _; exact ⟨rfl, rfl⟩
  | cons i rest ih =>
    intro s hl
    simp only [List.foldl_cons]
    have hstep : (bandScanStep mag freqf s i).1 = s.1
        ∧ (bandScanStep mag freqf s i).2.1 = s.2.1 := by
      unfold bandScanStep
      split_ifs with hband hmax
      · exact absurd hmax (not_lt.mpr (hl i (by simp) hband.1 hband.2))
      · exact ⟨rfl, rfl⟩
      · exact ⟨rfl, rfl⟩
    have hrest := ih (bandScanStep mag freqf s i)
      (fun j hj h3 h12 => hstep.1 ▸ hl j (by simp [hj]) h3 h12)
    exact ⟨hrest.1.trans hstep.1, hrest.2.trans hstep.2⟩

theorem tsDominantFreqBin_sineWave : tsDominantFreqBin sineWave 200 = 6 := by
  unfold tsDominantFreqBin bandScan
  rw [sineWave_length]
  have hbins : binIndices (numBinsTS 256) = List.range' 1 127 := rfl
  rw [hbins]
  have hsplit : List.range' 1 127 = List.range' 1 5 ++ 6 :: List.range' 7 121 := by decide
  rw [hsplit, List.foldl_append]
  have hmag6 : (90 : ℝ) ≤ magnitudeAt sineWave 200 6 := mag6_lb
  have hub : ∀ j : ℕ, 3 ≤ binFrequency 200 256 j → binFrequency 200 256 j ≤ 12 → j ≠ 6 →
      magnitudeAt sineWave 200 j ≤ 80 := by
    intro j h3 h12 hne
    have hf : binFrequency 200 256 j = (j : ℝ) * 200 / 256 := by
      rw [binFrequency]
      norm_num
    have h4 : 4 ≤ j := by
      by_contra hc
      push_neg at hc
      have hj3 : (j : ℝ) ≤ 3 := by exact_mod_cast Nat.lt_succ_iff.mp hc
      rw [hf] at h3
      linarith
    have h15 : j ≤ 15 := by
      by_contra hc
      push_neg at hc
      have hj16 : (16 : ℝ) ≤ (j : ℝ) := by exact_mod_cast hc
      rw [hf] at h12
      linarith
    exact mag_band_ub j h4 h15 hne
  have hphase1 : (List.foldl (bandScanStep (magnitudeAt sineWave 200) (binFrequency 200 256))
      ((0 : ℝ), (0 : ℕ), (0 : ℝ)) (List.range' 1 5)).1 < magnitudeAt sineWave 200 6 := by
    apply bandScan_foldl_lt
    · simpa using lt_of_lt_of_le (by norm_num : (0:ℝ) < 90) hmag6
    · intro j hj h3 h12
      have hmem := List.mem_range'_1.mp hj
      have hne : j ≠ 6 := by omega
      linarith [hub j h3 h12 hne]
  set s1 := List.foldl (bandScanStep (magnitudeAt sineWave 200) (binFrequency 200 256))
      ((0 : ℝ), (0 : ℕ), (0 : ℝ)) (List.range' 1 5) with hs1
  have hstep6 : bandScanStep (magnitudeAt sineWave 200) (binFrequency 200 256) s1 6
      = (magnitudeAt sineWave 200 6, 6, s1.2.2 + magnitudeAt sineWave 200 6) := by
    unfold bandScanStep
    have hf6 : binFrequency 200 256 6 = 4.6875 := by
      rw [binFrequency]
      norm_num
    rw [if_pos (by rw [hf6]; norm_num : 3 ≤ binFrequency 200 256 6 ∧ binFrequency 200 256 6 ≤ 12)]
    rw [if_pos hphase1]
  rw [show (6 :: List.range' 7 121) = [6] ++ List.range' 7 121 from rfl, List.foldl_append]
  simp only [List.foldl_cons, List.foldl_nil]
  rw [hstep6]
  have hfixed := bandScan_foldl_fix (magnitudeAt sineWave 200) (binFrequency 200 256)
    (List.range' 7 121)
    (magnitudeAt sineWave 200 6, 6, s1.2.2 + magnitudeAt sineWave 200 6)
    (by
      intro j hj h3 h12
      have hmem := List.mem_range'_1.mp hj
      have hne : j ≠ 6 := by omega
      have := hub j h3 h12 hne
      dsimp only
      linarith)
  exact hfixed.2

theorem tsDominantFrequency_sineWave : tsDominantFrequency sineWave 200 = 4.6875 := by
  unfold tsDominantFrequency
  rw [tsDominantFreqBin_sineWave, sineWave_length]
  have hf : binFrequency 200 256 6 = 4.6875 := by
    rw [binFrequency]
    norm_num
  rw [hf]
  norm_num

/-- C4: for the window of 256 samples of a pure 5 Hz sine wave sampled
at 200 Hz, the dominant frequency reported by the pipeline is bin 6,
i.e. `6*200/256 = 4.6875` Hz, which is within one frequency-bin width
(`200/256 = 0.78125` Hz) of 5 Hz. -/
theorem sineWave_dominant_frequency_within_bin :
    |(extractEMGFeatures sineWave 200).dominantFrequency - 5| ≤ 200 / 256 := by
  have hlen : ¬(sineWave.length = 0) := by rw [sineWave_length]; norm_num
  have hdf : (extractEMGFeatures sineWave 200).dominantFrequency
      = tsDominantFrequency sineWave 200 := by
    unfold extractEMGFeatures
    rw [if_neg hlen]
  rw [hdf, tsDominantFrequency_sineWave]
  rw [show (4.6875 : ℝ) - 5 = -0.3125 by norm_num, abs_neg,
    abs_of_pos (by norm_num : (0 : ℝ) < 0.3125)]
  norm_num

end NeuroPulse
